import Mathlib

/-!
Shallow embedding of the astronomical event-detection core of the
Moon Phase Tracker (`moon_phase_tracker.py`) and the column contract of the
report dashboard (`lunar_report_app.py`).

Real-valued quantities (elongation angles in degrees, times in hours) are
modelled as rationals; the ephemeris provider is abstracted as function
parameters, so each embedded routine is the source routine as a function of
the ephemeris data it consumes.
-/

namespace MoonTracker

/-- Python `int()` truncation toward zero, on rationals. -/
def pyInt (q : ℚ) : ℤ := if 0 ≤ q then ⌊q⌋ else ⌈q⌉

/-- Python `round(x, n)` uses round-half-to-even on the scaled value. -/
def roundHalfEven (q : ℚ) : ℤ :=
  if q - ⌊q⌋ = 1/2 then (if Even ⌊q⌋ then ⌊q⌋ else ⌊q⌋ + 1) else round q

/-- Python `round(x, 1)`: round-half-even at one decimal place. -/
def pyRound1 (q : ℚ) : ℚ := (roundHalfEven (q * 10) : ℚ) / 10

/-! ## Phase Classifier (`get_lunar_phase`, lines 56-79)

`get_lunar_phase` computes the Sun-Moon elongation from the ephemeris and then
derives the illumination percentage and the phase label from it; we embed the
two derivations as functions of the elongation. -/

/-- Illumination from elongation: `(1 - abs(elongation - 180) / 180) * 100`
rounded to 1 decimal (lines 58-59). -/
def illumination (elongation : ℚ) : ℚ :=
  pyRound1 ((1 - |elongation - 180| / 180) * 100)

/-- Phase-name ladder of `get_lunar_phase` (lines 62-77). -/
def phase_name (elongation : ℚ) : String :=
  if elongation < 22.5 ∨ elongation ≥ 337.5 then "New Moon"
  else if elongation < 67.5 then "Waxing Crescent"
  else if elongation < 112.5 then "First Quarter"
  else if elongation < 157.5 then "Waxing Gibbous"
  else if elongation < 202.5 then "Full Moon"
  else if elongation < 247.5 then "Waning Gibbous"
  else if elongation < 292.5 then "Last Quarter"
  else "Waning Crescent"

/-- The 8 phase labels of the data model. -/
def phaseLabels : List String :=
  ["New Moon", "Waxing Crescent", "First Quarter", "Waxing Gibbous",
   "Full Moon", "Waning Gibbous", "Last Quarter", "Waning Crescent"]

/-- Modelled from the spec's words (§4.1): partition of [0,360) into 8 equal
45°-wide bands with boundaries at odd multiples of 22.5°, the band containing
0°/360° wrapping. Used to compare the source ladder against the spec. -/
def specPhase (elongation : ℚ) : String :=
  if elongation < 22.5 ∨ elongation ≥ 337.5 then "New Moon"
  else if 22.5 ≤ elongation ∧ elongation < 67.5 then "Waxing Crescent"
  else if 67.5 ≤ elongation ∧ elongation < 112.5 then "First Quarter"
  else if 112.5 ≤ elongation ∧ elongation < 157.5 then "Waxing Gibbous"
  else if 157.5 ≤ elongation ∧ elongation < 202.5 then "Full Moon"
  else if 202.5 ≤ elongation ∧ elongation < 247.5 then "Waning Gibbous"
  else if 247.5 ≤ elongation ∧ elongation < 292.5 then "Last Quarter"
  else "Waning Crescent"

/-! ## Eclipse Detector (`check_lunar_eclipse`, lines 169-207) -/

/-- `EARTH_ANGULAR_RADIUS_AT_MOON` (line 22). -/
def EARTH_ANGULAR_RADIUS_AT_MOON : ℚ := 1.9

/-- `SUN_ANGULAR_RADIUS_AT_MOON` (line 23). -/
def SUN_ANGULAR_RADIUS_AT_MOON : ℚ := 0.27

/-- `check_lunar_eclipse` as a function of the elongation the ephemeris
returns at the queried instant (lines 187-207): gate at 5° from opposition,
then the Total/Partial/Penumbral classification ladder. -/
def check_lunar_eclipse (elongation : ℚ) : Option String × ℤ × ℚ :=
  if |elongation - 180| > 5 then (none, 0, |elongation - 180|)
  else
    let penumbra_radius := EARTH_ANGULAR_RADIUS_AT_MOON + SUN_ANGULAR_RADIUS_AT_MOON
    let umbra_radius := EARTH_ANGULAR_RADIUS_AT_MOON - SUN_ANGULAR_RADIUS_AT_MOON
    let offset := |elongation - 180|
    if offset < umbra_radius * 0.5 then
      (some "Total", pyInt (100 * (1 - offset / umbra_radius)), offset)
    else if offset < umbra_radius then
      (some "Partial", pyInt (100 * (1 - offset / umbra_radius)), offset)
    else if offset < penumbra_radius then
      (some "Penumbral", pyInt (50 * (1 - offset / penumbra_radius)), offset)
    else (none, 0, offset)

/-- Modelled from the spec's words (§4.3 and claim C3): the same detector
written with the literal radii `umbraRadius = 1.63`, `penumbraRadius = 2.17`
and the first-match ladder, depths truncated to integers. -/
def eclipseSpec (elongation : ℚ) : Option String × ℤ × ℚ :=
  let offset := |elongation - 180|
  if offset > 5 then (none, 0, offset)
  else if offset < 0.5 * 1.63 then
    (some "Total", pyInt (100 * (1 - offset / 1.63)), offset)
  else if offset < 1.63 then
    (some "Partial", pyInt (100 * (1 - offset / 1.63)), offset)
  else if offset < 2.17 then
    (some "Penumbral", pyInt (50 * (1 - offset / 2.17)), offset)
  else (none, 0, offset)

/-- Reported eclipse depth at elongation `180 + offset`. -/
def depthAt (offset : ℚ) : ℤ := (check_lunar_eclipse (180 + offset)).2.1

/-! ### Helper lemmas on the rounding primitives -/

lemma roundHalfEven_nonneg {q : ℚ} (h : 0 ≤ q) : 0 ≤ roundHalfEven q := by
  have h2 : (0 : ℤ) ≤ ⌊q⌋ := Int.floor_nonneg.mpr h
  unfold roundHalfEven
  split_ifs with hfrac heven
  · omega
  · omega
  · rw [round_eq]
    exact Int.floor_nonneg.mpr (by linarith)

lemma roundHalfEven_le {q : ℚ} {n : ℤ} (h : q ≤ (n : ℚ)) : roundHalfEven q ≤ n := by
  unfold roundHalfEven
  have hfl := Int.floor_le q
  split_ifs with hfrac heven
  · have hlt : (⌊q⌋ : ℚ) < (n : ℚ) := by linarith
    have : ⌊q⌋ < n := by exact_mod_cast hlt
    omega
  · have hlt : (⌊q⌋ : ℚ) < (n : ℚ) := by linarith
    have : ⌊q⌋ < n := by exact_mod_cast hlt
    omega
  · rw [round_eq]
    have hlt : q + 1/2 < ((n + 1 : ℤ) : ℚ) := by push_cast; linarith
    have := Int.floor_lt.mpr hlt
    omega

end MoonTracker

namespace MoonTracker

/-! ## Theorems about the Phase Classifier and Eclipse Detector -/

/-- C5: for every elongation in [0,360), `get_lunar_phase` assigns exactly one
of the 8 phase labels, agreeing with the spec's 45°-wide band partition with
boundaries at odd multiples of 22.5° and the wrapping New-Moon band; the
boundary 22.5 resolves to Waxing Crescent, 180 to Full Moon, 0 to New Moon. -/
theorem phase_partition (e : ℚ) (h0 : 0 ≤ e) (hlt : e < 360) :
    phase_name e ∈ phaseLabels ∧ phase_name e = specPhase e ∧
    phase_name 22.5 = "Waxing Crescent" ∧ phase_name 180 = "Full Moon" ∧
    phase_name 0 = "New Moon" := by
  refine ⟨?_, ?_, by norm_num [phase_name], by norm_num [phase_name],
    by norm_num [phase_name]⟩
  · unfold phase_name
    split_ifs <;> simp [phaseLabels]
  · unfold phase_name specPhase
    rcases lt_or_le e 22.5 with h1 | h1
    · rw [if_pos (Or.inl h1), if_pos (Or.inl h1)]
    rcases le_or_lt 337.5 e with hw | hw
    · rw [if_pos (Or.inr hw), if_pos (Or.inr hw)]
    have hc0 : ¬ (e < 22.5 ∨ e ≥ 337.5) := by
      push_neg
      exact ⟨h1, hw⟩
    rw [if_neg hc0, if_neg hc0]
    rcases lt_or_le e 67.5 with h2 | h2
    · rw [if_pos h2, if_pos ⟨h1, h2⟩]
    rw [if_neg (not_lt.mpr h2), if_neg (show ¬ (22.5 ≤ e ∧ e < 67.5) from fun hc => (not_lt.mpr h2) hc.2)]
    rcases lt_or_le e 112.5 with h3 | h3
    · rw [if_pos h3, if_pos ⟨h2, h3⟩]
    rw [if_neg (not_lt.mpr h3), if_neg (show ¬ (67.5 ≤ e ∧ e < 112.5) from fun hc => (not_lt.mpr h3) hc.2)]
    rcases lt_or_le e 157.5 with h4 | h4
    · rw [if_pos h4, if_pos ⟨h3, h4⟩]
    rw [if_neg (not_lt.mpr h4), if_neg (show ¬ (112.5 ≤ e ∧ e < 157.5) from fun hc => (not_lt.mpr h4) hc.2)]
    rcases lt_or_le e 202.5 with h5 | h5
    · rw [if_pos h5, if_pos ⟨h4, h5⟩]
    rw [if_neg (not_lt.mpr h5), if_neg (show ¬ (157.5 ≤ e ∧ e < 202.5) from fun hc => (not_lt.mpr h5) hc.2)]
    rcases lt_or_le e 247.5 with h6 | h6
    · rw [if_pos h6, if_pos ⟨h5, h6⟩]
    rw [if_neg (not_lt.mpr h6), if_neg (show ¬ (202.5 ≤ e ∧ e < 247.5) from fun hc => (not_lt.mpr h6) hc.2)]
    rcases lt_or_le e 292.5 with h7 | h7
    · rw [if_pos h7, if_pos ⟨h6, h7⟩]
    rw [if_neg (not_lt.mpr h7), if_neg (show ¬ (247.5 ≤ e ∧ e < 292.5) from fun hc => (not_lt.mpr h7) hc.2)]

/-- Witness for `phase_partition` at elongation 100. -/
theorem phase_partition_witness :
    (0 : ℚ) ≤ 100 ∧ (100 : ℚ) < 360 ∧
    (phase_name 100 ∈ phaseLabels ∧ phase_name 100 = specPhase 100 ∧
     phase_name 22.5 = "Waxing Crescent" ∧ phase_name 180 = "Full Moon" ∧
     phase_name 0 = "New Moon") :=
  ⟨by norm_num, by norm_num, phase_partition 100 (by norm_num) (by norm_num)⟩

/-- C6: for elongation in [0,360], the illumination of `get_lunar_phase` is
the rounded `(1 - |e - 180| / 180) * 100` formula, lies in [0,100], and takes
value 0 at 0 and 360 and value 100 at 180. -/
theorem illumination_bounds (e : ℚ) (h0 : 0 ≤ e) (h360 : e ≤ 360) :
    illumination e = pyRound1 ((1 - |e - 180| / 180) * 100) ∧
    0 ≤ illumination e ∧ illumination e ≤ 100 ∧
    illumination 0 = 0 ∧ illumination 360 = 0 ∧ illumination 180 = 100 := by
  have habs : |e - 180| ≤ 180 := abs_le.mpr ⟨by linarith, by linarith⟩
  have habs0 : 0 ≤ |e - 180| := abs_nonneg _
  have hraw0 : 0 ≤ (1 - |e - 180| / 180) * 100 := by nlinarith
  have hraw1 : (1 - |e - 180| / 180) * 100 ≤ 100 := by nlinarith
  refine ⟨rfl, ?_, ?_, ?_, ?_, ?_⟩
  · unfold illumination pyRound1
    have := roundHalfEven_nonneg (q := (1 - |e - 180| / 180) * 100 * 10) (by nlinarith)
    positivity
  · unfold illumination pyRound1
    have hle : roundHalfEven ((1 - |e - 180| / 180) * 100 * 10) ≤ (1000 : ℤ) :=
      roundHalfEven_le (by push_cast; nlinarith)
    rw [div_le_iff₀ (by norm_num)]
    calc ((roundHalfEven ((1 - |e - 180| / 180) * 100 * 10) : ℤ) : ℚ)
        ≤ ((1000 : ℤ) : ℚ) := by exact_mod_cast hle
      _ = 100 * 10 := by norm_num
  · norm_num [illumination, pyRound1, roundHalfEven, round_eq]
  · norm_num [illumination, pyRound1, roundHalfEven, round_eq]
  · norm_num [illumination, pyRound1, roundHalfEven, round_eq]

/-- Witness for `illumination_bounds` at elongation 90. -/
theorem illumination_bounds_witness :
    (0 : ℚ) ≤ 90 ∧ (90 : ℚ) ≤ 360 ∧
    (illumination 90 = pyRound1 ((1 - |(90 : ℚ) - 180| / 180) * 100) ∧
     0 ≤ illumination 90 ∧ illumination 90 ≤ 100 ∧
     illumination 0 = 0 ∧ illumination 360 = 0 ∧ illumination 180 = 100) :=
  ⟨by norm_num, by norm_num, illumination_bounds 90 (by norm_num) (by norm_num)⟩

/-- C3: `check_lunar_eclipse` gates at 5° from opposition and then applies the
spec's first-match ladder with umbraRadius 1.63 and penumbraRadius 2.17,
depths truncated to integers; at opposition it reports Total with depth 100. -/
theorem check_lunar_eclipse_matches_spec :
    (∀ e : ℚ, check_lunar_eclipse e = eclipseSpec e) ∧
    check_lunar_eclipse 180 = (some "Total", 100, 0) := by
  constructor
  · intro e
    unfold check_lunar_eclipse eclipseSpec
    norm_num [EARTH_ANGULAR_RADIUS_AT_MOON, SUN_ANGULAR_RADIUS_AT_MOON]
  · have habs : |(180 : ℚ) - 180| = 0 := by norm_num
    simp only [check_lunar_eclipse, habs]
    norm_num [EARTH_ANGULAR_RADIUS_AT_MOON, SUN_ANGULAR_RADIUS_AT_MOON, pyInt]

/-- C2 counterexample: offsets 1.6 < 1.7 are both within the 5° gate, yet the
reported depth at offset 1.6 (Partial, depth 1) is smaller than the depth at
offset 1.7 (Penumbral, depth 10): decreasing the offset toward 180° can
decrease the reported depth across the umbra boundary. -/
theorem eclipse_depth_not_monotone :
    depthAt 1.6 = 1 ∧ depthAt 1.7 = 10 ∧ ¬ depthAt 1.7 ≤ depthAt 1.6 := by
  have h16 : depthAt 1.6 = 1 := by
    have habs : |(180 : ℚ) + 1.6 - 180| = 1.6 := by rw [add_sub_cancel_left, abs_of_nonneg]; norm_num
    simp only [depthAt, check_lunar_eclipse, habs]
    norm_num [EARTH_ANGULAR_RADIUS_AT_MOON, SUN_ANGULAR_RADIUS_AT_MOON, pyInt]
  have h17 : depthAt 1.7 = 10 := by
    have habs : |(180 : ℚ) + 1.7 - 180| = 1.7 := by rw [add_sub_cancel_left, abs_of_nonneg]; norm_num
    simp only [depthAt, check_lunar_eclipse, habs]
    norm_num [EARTH_ANGULAR_RADIUS_AT_MOON, SUN_ANGULAR_RADIUS_AT_MOON, pyInt]
  exact ⟨h16, h17, by rw [h16, h17]; norm_num⟩

end MoonTracker

namespace MoonTracker

/-! ## Horizon Crossing Finder (`get_moon_rise_set`, lines 144-166)

The almanac returns, for the queried UTC day, the initial above-horizon state
and a list of transition events (time paired with the event code, where
`true` stands for the rising code 1 and `false` for the setting code 0); the
function derives the all-day flags and scans the events for the first rise
and first set, stopping once both are found. Times are abstract (ℕ). -/


/-- One step of the event loop body (lines 158-161): the `if`/`elif` that
records the first rise and the first set. -/
def recordEvent (r s : Option ℕ) (t : ℕ) (ev : Bool) : Option ℕ × Option ℕ :=
  if ev = true ∧ r = none then (some t, s)
  else if ev = false ∧ s = none then (r, some t)
  else (r, s)

/-- The event loop of lines 157-164: fold `recordEvent` over the events, with
the early break once both a rise and a set are found (lines 163-164). -/
def scanEvents (r s : Option ℕ) : List (ℕ × Bool) → Option ℕ × Option ℕ
  | [] => (r, s)
  | (t, ev) :: rest =>
    let rs := recordEvent r s t ev
    if rs.1.isSome ∧ rs.2.isSome then rs else scanEvents rs.1 rs.2 rest

/-- `get_moon_rise_set` as a function of the almanac outputs for the day:
initial above-horizon state and discrete transition events (lines 149-166). -/
def get_moon_rise_set (isUpAtStart : Bool) (events : List (ℕ × Bool)) :
    Option ℕ × Option ℕ × Bool × Bool :=
  let moon_up_all_day := isUpAtStart && events.isEmpty
  let moon_down_all_day := !isUpAtStart && events.isEmpty
  let rs := scanEvents none none events
  (rs.1, rs.2, moon_up_all_day, moon_down_all_day)

lemma recordEvent_fst_none {r s : Option ℕ} {t : ℕ} {ev : Bool}
    (h : (recordEvent r s t ev).1 = none) : r = none := by
  unfold recordEvent at h
  split_ifs at h with h1 h2 <;> exact h

lemma recordEvent_snd_none {r s : Option ℕ} {t : ℕ} {ev : Bool}
    (h : (recordEvent r s t ev).2 = none) : s = none := by
  unfold recordEvent at h
  split_ifs at h with h1 h2 <;> exact h

lemma recordEvent_cons_progress (t : ℕ) (ev : Bool) :
    (recordEvent none none t ev).1.isSome ∨ (recordEvent none none t ev).2.isSome := by
  unfold recordEvent
  cases ev with
  | true => simp
  | false => simp

lemma scanEvents_fst_none {l : List (ℕ × Bool)} :
    ∀ {r s : Option ℕ}, (scanEvents r s l).1 = none → r = none := by
  induction l with
  | nil => intro r s h; exact h
  | cons p rest ih =>
    intro r s h
    obtain ⟨t, ev⟩ := p
    unfold scanEvents at h
    dsimp only at h
    split_ifs at h with hboth
    · exact recordEvent_fst_none h
    · exact recordEvent_fst_none (ih h)

lemma scanEvents_snd_none {l : List (ℕ × Bool)} :
    ∀ {r s : Option ℕ}, (scanEvents r s l).2 = none → s = none := by
  induction l with
  | nil => intro r s h; exact h
  | cons p rest ih =>
    intro r s h
    obtain ⟨t, ev⟩ := p
    unfold scanEvents at h
    dsimp only at h
    split_ifs at h with hboth
    · exact recordEvent_snd_none h
    · exact recordEvent_snd_none (ih h)

/-- On a non-empty event list, the scan reports at least one of rise/set. -/
lemma scanEvents_cons_some (t : ℕ) (ev : Bool) (rest : List (ℕ × Bool)) :
    (scanEvents none none ((t, ev) :: rest)).1.isSome ∨
    (scanEvents none none ((t, ev) :: rest)).2.isSome := by
  unfold scanEvents
  dsimp only
  rcases recordEvent_cons_progress t ev with hp | hp
  · left
    split_ifs with hboth
    · exact hp
    · cases hr : (scanEvents (recordEvent none none t ev).1
          (recordEvent none none t ev).2 rest).1 with
      | none => simp [scanEvents_fst_none hr] at hp
      | some v => simp [hr]
  · right
    split_ifs with hboth
    · exact hp
    · cases hr : (scanEvents (recordEvent none none t ev).1
          (recordEvent none none t ev).2 rest).2 with
      | none => simp [scanEvents_snd_none hr] at hp
      | some v => simp [hr]

end MoonTracker

namespace MoonTracker

/-- C7: for every day's almanac data (initial above-horizon state and
transition events), the 4-tuple returned by `get_moon_rise_set` satisfies:
exactly one of up-all-day, down-all-day, or at-least-one-of-rise/set holds. -/
theorem rise_set_mutual_exclusion (isUp : Bool) (events : List (ℕ × Bool)) :
    (get_moon_rise_set isUp events).2.2.1 = true ∧
      (get_moon_rise_set isUp events).2.2.2 = false ∧
      (get_moon_rise_set isUp events).1 = none ∧
      (get_moon_rise_set isUp events).2.1 = none ∨
    (get_moon_rise_set isUp events).2.2.2 = true ∧
      (get_moon_rise_set isUp events).2.2.1 = false ∧
      (get_moon_rise_set isUp events).1 = none ∧
      (get_moon_rise_set isUp events).2.1 = none ∨
    ((get_moon_rise_set isUp events).1.isSome ∨
        (get_moon_rise_set isUp events).2.1.isSome) ∧
      (get_moon_rise_set isUp events).2.2.1 = false ∧
      (get_moon_rise_set isUp events).2.2.2 = false := by
  cases events with
  | nil =>
    cases isUp with
    | true => left; exact ⟨rfl, rfl, rfl, rfl⟩
    | false => right; left; exact ⟨rfl, rfl, rfl, rfl⟩
  | cons p rest =>
    obtain ⟨t, ev⟩ := p
    right; right
    refine ⟨scanEvents_cons_some t ev rest, ?_, ?_⟩ <;>
      simp [get_moon_rise_set]

end MoonTracker

namespace MoonTracker

/-! ## Night-Window Eclipse Sampler (`sample_night_for_eclipse`, lines 210-258)

Times are rational hours; the hourly step is `+ 1`. The eclipse detector at
an instant is abstracted as a function `f` from the instant to the detector's
type and depth (the composition of `check_lunar_eclipse` with the ephemeris).
Besides the best-eclipse result the embedding also returns the list of
instants handed to the detector, so that sample counts can be stated. -/

/-- The hourly sampling loop of lines 238-256: guard `current <= night_end and
sample_count < max_samples` (48), best-eclipse tracking, and the extra safety
break once the next instant is more than 48 hours past the window start. -/
def sampleLoop (f : ℚ → Option String × ℤ) (nightStart nightEnd : ℚ)
    (cur : ℚ) (count : ℕ) (best : Option String × ℤ × Option ℚ) :
    (Option String × ℤ × Option ℚ) × List ℚ :=
  if h : cur ≤ nightEnd ∧ count < 48 then
    let fd := f cur
    let best' := if fd.1.isSome ∧ fd.2 > best.2.1 then (fd.1, fd.2, some cur) else best
    if cur + 1 - nightStart > 48 then (best', [cur])
    else
      let res := sampleLoop f nightStart nightEnd (cur + 1) (count + 1) best'
      (res.1, cur :: res.2)
  else (best, [])
termination_by 48 - count
decreasing_by simp_wf; omega

/-- `sample_night_for_eclipse` (lines 215-258) as a function of the detector
`f`, the midnight `dayStart` of the anchor's UTC day, and the rise-set data;
returns the best-eclipse triple together with the sampled instants. -/
def sample_night_for_eclipse (f : ℚ → Option String × ℤ) (dayStart : ℚ)
    (rise_time set_time : Option ℚ) (moon_up_all_day moon_down_all_day : Bool) :
    (Option String × ℤ × Option ℚ) × List ℚ :=
  if moon_down_all_day then ((none, 0, none), [])
  else if moon_up_all_day then
    sampleLoop f dayStart (dayStart + 24) dayStart 0 (none, 0, none)
  else
    match rise_time, set_time with
    | some r, some s =>
      let night_end := if s < r then s + 24 else s
      sampleLoop f r night_end r 0 (none, 0, none)
    | _, _ => ((none, 0, none), [])

/-- Start of the sampling window chosen by lines 223-235 (meaningful only
when a window exists; otherwise no instant is sampled). -/
def sampleWindowStart (dayStart : ℚ) (rise_time : Option ℚ)
    (moon_up_all_day : Bool) : ℚ :=
  if moon_up_all_day then dayStart
  else
    match rise_time with
    | some r => r
    | none => dayStart

lemma sampleLoop_length_le (f : ℚ → Option String × ℤ) (s e : ℚ) :
    ∀ (k : ℕ) (count : ℕ) (cur : ℚ) (b : Option String × ℤ × Option ℚ),
      48 - count = k → (sampleLoop f s e cur count b).2.length ≤ k := by
  intro k
  induction k with
  | zero =>
    intro count cur b hk
    rw [sampleLoop]
    rw [dif_neg (by omega : ¬ (cur ≤ e ∧ count < 48))]
    simp
  | succ k ih =>
    intro count cur b hk
    rw [sampleLoop]
    split_ifs with hg hbreak
    · simp
    · simpa using Nat.succ_le_succ (ih (count + 1) (cur + 1) _ (by omega))
    · simp

lemma sampleLoop_mem_le (f : ℚ → Option String × ℤ) (s e : ℚ) :
    ∀ (k : ℕ) (count : ℕ) (cur : ℚ) (b : Option String × ℤ × Option ℚ),
      48 - count = k →
      ∀ t ∈ (sampleLoop f s e cur count b).2, t ≤ cur + k - 1 := by
  intro k
  induction k with
  | zero =>
    intro count cur b hk
    rw [sampleLoop]
    rw [dif_neg (by omega : ¬ (cur ≤ e ∧ count < 48))]
    simp
  | succ k ih =>
    intro count cur b hk t ht
    rw [sampleLoop] at ht
    split_ifs at ht with hg hbreak
    · simp at ht
      subst ht
      have : (0 : ℚ) ≤ (k : ℚ) := by positivity
      push_cast
      linarith
    · simp at ht
      rcases ht with ht | ht
      · subst ht
        have : (0 : ℚ) ≤ (k : ℚ) := by positivity
        push_cast
        linarith
      · have := ih (count + 1) (cur + 1) _ (by omega) t ht
        push_cast at this ⊢
        linarith
    · simp at ht

lemma sampleLoop_length_window (f : ℚ → Option String × ℤ) (s e : ℚ) :
    ∀ (k : ℕ) (count : ℕ) (cur : ℚ) (b : Option String × ℤ × Option ℚ),
      e < cur + k → (sampleLoop f s e cur count b).2.length ≤ k := by
  intro k
  induction k with
  | zero =>
    intro count cur b hk
    rw [sampleLoop]
    rw [dif_neg (by intro hc; push_cast at hk; linarith [hc.1])]
    simp
  | succ k ih =>
    intro count cur b hk
    rw [sampleLoop]
    split_ifs with hg hbreak
    · simp
    · have : e < (cur + 1) + k := by push_cast at hk ⊢; linarith
      simpa using Nat.succ_le_succ (ih (count + 1) (cur + 1) _ this)
    · simp

end MoonTracker

namespace MoonTracker

/-- C8: for every input the sampler (a total function) hands the eclipse
detector at most 48 instants, none more than 48 hours past the window start;
for a rise-at-06:00, set-at-18:00 window it takes at most 13 hourly samples. -/
theorem sampler_resource_bounds (f : ℚ → Option String × ℤ) (dayStart : ℚ)
    (rise_time set_time : Option ℚ) (up down : Bool) :
    (sample_night_for_eclipse f dayStart rise_time set_time up down).2.length ≤ 48 ∧
    (∀ t ∈ (sample_night_for_eclipse f dayStart rise_time set_time up down).2,
        t ≤ sampleWindowStart dayStart rise_time up + 48) ∧
    (sample_night_for_eclipse f dayStart (some 6) (some 18) false false).2.length ≤ 13 := by
  refine ⟨?_, ?_, ?_⟩
  · cases down with
    | true => simp [sample_night_for_eclipse]
    | false =>
      cases up with
      | true =>
        rw [show sample_night_for_eclipse f dayStart rise_time set_time true false =
            sampleLoop f dayStart (dayStart + 24) dayStart 0 (none, 0, none) from rfl]
        exact sampleLoop_length_le f dayStart (dayStart + 24) 48 0 dayStart _ rfl
      | false =>
        rcases rise_time with _ | r
        · simp [sample_night_for_eclipse]
        rcases set_time with _ | s
        · simp [sample_night_for_eclipse]
        rw [show sample_night_for_eclipse f dayStart (some r) (some s) false false =
            sampleLoop f r (if s < r then s + 24 else s) r 0 (none, 0, none) from rfl]
        exact sampleLoop_length_le f r _ 48 0 r _ rfl
  · cases down with
    | true => simp [sample_night_for_eclipse]
    | false =>
      cases up with
      | true =>
        rw [show sample_night_for_eclipse f dayStart rise_time set_time true false =
            sampleLoop f dayStart (dayStart + 24) dayStart 0 (none, 0, none) from rfl,
          show sampleWindowStart dayStart rise_time true = dayStart from rfl]
        intro t ht
        have := sampleLoop_mem_le f dayStart (dayStart + 24) 48 0 dayStart _ rfl t ht
        push_cast at this
        linarith
      | false =>
        rcases rise_time with _ | r
        · simp [sample_night_for_eclipse]
        rcases set_time with _ | s
        · simp [sample_night_for_eclipse]
        rw [show sample_night_for_eclipse f dayStart (some r) (some s) false false =
            sampleLoop f r (if s < r then s + 24 else s) r 0 (none, 0, none) from rfl,
          show sampleWindowStart dayStart (some r) false = r from rfl]
        intro t ht
        have := sampleLoop_mem_le f r (if s < r then s + 24 else s) 48 0 r
          (none, 0, none) rfl t ht
        push_cast at this
        linarith
  · rw [show sample_night_for_eclipse f dayStart (some 6) (some 18) false false =
        sampleLoop f 6 (if (18 : ℚ) < 6 then 18 + 24 else 18) 6 0 (none, 0, none) from rfl]
    rw [if_neg (by norm_num : ¬ (18 : ℚ) < 6)]
    exact sampleLoop_length_window f 6 18 13 0 6 _ (by norm_num)

/-- Witness for `sampler_resource_bounds` at a concrete input. -/
theorem sampler_resource_bounds_witness :
    (sample_night_for_eclipse (fun _ => (none, 0)) 0 (some 6) (some 18)
        false false).2.length ≤ 48 ∧
    (∀ t ∈ (sample_night_for_eclipse (fun _ => (none, 0)) 0 (some 6) (some 18)
        false false).2, t ≤ sampleWindowStart 0 (some 6) false + 48) ∧
    (sample_night_for_eclipse (fun _ => (none, 0)) 0 (some 6) (some 18)
        false false).2.length ≤ 13 :=
  sampler_resource_bounds (fun _ => (none, 0)) 0 (some 6) (some 18) false false

/-- C9: when the Moon is down all day the sampler immediately returns the
no-eclipse triple and hands the detector no instant at all. -/
theorem sampler_skips_moon_down (f : ℚ → Option String × ℤ) (dayStart : ℚ)
    (rise_time set_time : Option ℚ) (up : Bool) :
    sample_night_for_eclipse f dayStart rise_time set_time up true =
      ((none, 0, none), []) := rfl

/-- C10: on a single-crossing day (both all-day flags false and exactly one
of rise/set present) the sampler returns the no-eclipse triple without any
eclipse sampling. -/
theorem sampler_skips_single_crossing (f : ℚ → Option String × ℤ)
    (dayStart t : ℚ) :
    sample_night_for_eclipse f dayStart (some t) none false false =
      ((none, 0, none), []) ∧
    sample_night_for_eclipse f dayStart none (some t) false false =
      ((none, 0, none), []) :=
  ⟨rfl, rfl⟩

end MoonTracker

namespace MoonTracker

lemma depthAt_umbral (o : ℚ) (h0 : 0 ≤ o) (hu : o < 1.9 - 0.27) :
    depthAt o = ⌊100 * (1 - o / (1.9 - 0.27))⌋ := by
  have ea : |(180 : ℚ) + o - 180| = o := by rw [add_sub_cancel_left, abs_of_nonneg h0]
  have hq : 0 ≤ 100 * (1 - o / (1.9 - 0.27)) := by
    have : o / (1.9 - 0.27) < 1 := by
      rw [div_lt_one (by norm_num : (0 : ℚ) < 1.9 - 0.27)]
      exact hu
    linarith
  simp only [depthAt, check_lunar_eclipse, EARTH_ANGULAR_RADIUS_AT_MOON,
    SUN_ANGULAR_RADIUS_AT_MOON, ea, pyInt]
  rw [if_neg (show ¬ o > 5 from by norm_num at hu ⊢; linarith)]
  by_cases hhalf : o < (1.9 - 0.27) * 0.5
  · rw [if_pos hhalf]
    dsimp only
    rw [if_pos hq]
  · rw [if_neg hhalf, if_pos hu]
    dsimp only
    rw [if_pos hq]

lemma depthAt_penumbral (o : ℚ) (h0 : 0 ≤ o) (hl : 1.9 - 0.27 ≤ o)
    (hu : o < 1.9 + 0.27) :
    depthAt o = ⌊50 * (1 - o / (1.9 + 0.27))⌋ := by
  have ea : |(180 : ℚ) + o - 180| = o := by rw [add_sub_cancel_left, abs_of_nonneg h0]
  have hq : 0 ≤ 50 * (1 - o / (1.9 + 0.27)) := by
    have : o / (1.9 + 0.27) < 1 := by
      rw [div_lt_one (by norm_num : (0 : ℚ) < 1.9 + 0.27)]
      exact hu
    linarith
  simp only [depthAt, check_lunar_eclipse, EARTH_ANGULAR_RADIUS_AT_MOON,
    SUN_ANGULAR_RADIUS_AT_MOON, ea, pyInt]
  rw [if_neg (show ¬ o > 5 from by norm_num at hu ⊢; linarith),
    if_neg (show ¬ o < (1.9 - 0.27) * 0.5 from by norm_num at hl ⊢; linarith),
    if_neg (show ¬ o < 1.9 - 0.27 from not_lt.mpr hl), if_pos hu]
  dsimp only
  rw [if_pos hq]

lemma depthAt_outside (o : ℚ) (h0 : 0 ≤ o) (hl : 1.9 + 0.27 ≤ o) :
    depthAt o = 0 := by
  have ea : |(180 : ℚ) + o - 180| = o := by rw [add_sub_cancel_left, abs_of_nonneg h0]
  simp only [depthAt, check_lunar_eclipse, EARTH_ANGULAR_RADIUS_AT_MOON,
    SUN_ANGULAR_RADIUS_AT_MOON, ea, pyInt]
  by_cases hg : o > 5
  · rw [if_pos hg]
  · rw [if_neg hg,
      if_neg (show ¬ o < (1.9 - 0.27) * 0.5 from by norm_num at hl ⊢; linarith),
      if_neg (show ¬ o < 1.9 - 0.27 from by norm_num at hl ⊢; linarith),
      if_neg (not_lt.mpr hl)]

/-- C2 amended: within the 5° gate, decreasing the offset from opposition
never decreases the reported depth as long as the two offsets lie on the same
side of the umbra radius 1.63° (the monotonicity the claim states fails only
across the Partial/Penumbral boundary, where the depth formula changes). -/
theorem eclipse_depth_monotone_same_regime (a b : ℚ) (ha : 0 ≤ a) (hab : a < b)
    (hb : b ≤ 5) (hreg : b < 1.63 ∨ 1.63 ≤ a) :
    depthAt b ≤ depthAt a := by
  have hb0 : 0 ≤ b := le_trans ha hab.le
  have e163 : (1.63 : ℚ) = 1.9 - 0.27 := by norm_num
  rcases hreg with hreg | hreg
  · rw [e163] at hreg
    rw [depthAt_umbral a ha (lt_trans hab hreg), depthAt_umbral b hb0 hreg]
    apply Int.floor_le_floor
    have hd : a / (1.9 - 0.27) ≤ b / (1.9 - 0.27) :=
      div_le_div_of_nonneg_right hab.le (by norm_num)
    linarith
  · rw [e163] at hreg
    have ha163 : 1.9 - 0.27 ≤ a := hreg
    rcases lt_or_le a (1.9 + 0.27) with hap | hap
    · rcases lt_or_le b (1.9 + 0.27) with hbp | hbp
      · rw [depthAt_penumbral a ha ha163 hap,
          depthAt_penumbral b hb0 (le_trans ha163 hab.le) hbp]
        apply Int.floor_le_floor
        have hd : a / (1.9 + 0.27) ≤ b / (1.9 + 0.27) :=
          div_le_div_of_nonneg_right hab.le (by norm_num)
        linarith
      · rw [depthAt_penumbral a ha ha163 hap, depthAt_outside b hb0 hbp]
        apply Int.floor_nonneg.mpr
        have : a / (1.9 + 0.27) < 1 := by
          rw [div_lt_one (by norm_num : (0 : ℚ) < 1.9 + 0.27)]
          exact hap
        linarith
    · rw [depthAt_outside a ha hap, depthAt_outside b hb0 (le_trans hap hab.le)]

/-- Witness for `eclipse_depth_monotone_same_regime` at offsets 0.2 < 0.4. -/
theorem eclipse_depth_monotone_same_regime_witness :
    (0 : ℚ) ≤ 0.2 ∧ (0.2 : ℚ) < 0.4 ∧ (0.4 : ℚ) ≤ 5 ∧
    ((0.4 : ℚ) < 1.63 ∨ (1.63 : ℚ) ≤ 0.2) ∧ depthAt 0.4 ≤ depthAt 0.2 :=
  ⟨by norm_num, by norm_num, by norm_num, Or.inl (by norm_num),
    eclipse_depth_monotone_same_regime 0.2 0.4 (by norm_num) (by norm_num)
      (by norm_num) (Or.inl (by norm_num))⟩

end MoonTracker

namespace MoonTracker

/-! ## Batch Generation Driver — eclipse bookkeeping (`__main__`, lines 291-349)

The driver keeps a dictionary keyed by the local calendar date of each found
eclipse (lines 315-323) and, in the same loop iteration, assigns the day's
record its eclipse fields by looking its own local date up in the dictionary
as populated so far (lines 340-349).  The embedding abstracts each day to the
local date of its record and the optional result of its night search (the
eclipse's local date with type, depth and formatted time). -/

/-- An eclipse dictionary value: (eclipse type, depth, time string). -/
abbrev EclipseEntry := String × ℤ × String

/-- The `eclipse_dict` of line 293, as an association list in insertion
order (Python dicts preserve insertion order). -/
abbrev EclipseDict := List (ℕ × EclipseEntry)

/-- Dictionary lookup by local date. -/
def dictLookup (d : EclipseDict) (k : ℕ) : Option EclipseEntry :=
  match d.find? (fun p => p.1 == k) with
  | some p => some p.2
  | none => none

/-- Lines 321-323: store the eclipse under its local date if that date is
absent or the new depth is strictly greater; on ties the first-processed
entry is kept (the guard uses strict `>`). -/
def updateDict (d : EclipseDict) (k : ℕ) (v : EclipseEntry) : EclipseDict :=
  match dictLookup d k with
  | none => d ++ [(k, v)]
  | some old =>
    if v.2.1 > old.2.1 then d.map (fun p => if p.1 = k then (k, v) else p) else d

/-- One day of the batch loop, abstracted to its eclipse bookkeeping: the
record's local date and the optional night-search result (the eclipse's own
local date and entry). -/
structure DayInput where
  recordDate : ℕ
  eclipse : Option (ℕ × EclipseEntry)

/-- Lines 340-349: the eclipse fields a record receives for its local date,
with the "None"/0/"None" sentinel for absent dates. -/
def emitRecord (d : EclipseDict) (date : ℕ) : EclipseEntry :=
  match dictLookup d date with
  | some e => e
  | none => ("None", 0, "None")

/-- The driver loop (lines 296-349) restricted to eclipse bookkeeping: each
iteration first stores the day's found eclipse (if any), then immediately
assigns the day's record from the dictionary as of that same iteration. -/
def runBatchAux (d : EclipseDict) : List DayInput → EclipseDict × List (ℕ × EclipseEntry)
  | [] => (d, [])
  | day :: rest =>
    let d1 := match day.eclipse with
      | none => d
      | some (k, v) => updateDict d k v
    let out := runBatchAux d1 rest
    (out.1, (day.recordDate, emitRecord d1 day.recordDate) :: out.2)

/-- The records the driver produces (record local date, eclipse fields). -/
def runBatch (days : List DayInput) : List (ℕ × EclipseEntry) :=
  (runBatchAux [] days).2

/-- The eclipse dictionary after the whole run. -/
def finalEclipseDict (days : List DayInput) : EclipseDict :=
  (runBatchAux [] days).1

/-- Modelled from the spec's words (§4.5): a second pass after all days are
generated, assigning each record the FINAL mapping's entry for its own local
date, with the "None" sentinel for days without a match. -/
def secondPass (days : List DayInput) : List (ℕ × EclipseEntry) :=
  days.map (fun day => (day.recordDate, emitRecord (finalEclipseDict days) day.recordDate))

/-- A day's found eclipse (if any) is dated no earlier than the day's own
record date. -/
def eclipseKeyedForward (day : DayInput) : Bool :=
  match day.eclipse with
  | none => true
  | some (k, _) => day.recordDate ≤ k

end MoonTracker

namespace MoonTracker

lemma dictLookup_append_single_ne (d : EclipseDict) (k' k : ℕ) (v : EclipseEntry)
    (h : k' ≠ k) : dictLookup (d ++ [(k', v)]) k = dictLookup d k := by
  induction d with
  | nil =>
    unfold dictLookup
    simp only [List.nil_append, List.find?]
    have hf : (k' == k) = false := by simpa using h
    rw [hf]
  | cons p rest ih =>
    unfold dictLookup at ih ⊢
    rw [List.cons_append]
    simp only [List.find?]
    cases hp : (p.1 == k) with
    | false => exact ih
    | true => rfl

lemma dictLookup_mapfix (d : EclipseDict) (k' k : ℕ) (v : EclipseEntry) (h : k' ≠ k) :
    dictLookup (d.map (fun p => if p.1 = k' then (k', v) else p)) k = dictLookup d k := by
  induction d with
  | nil => rfl
  | cons p rest ih =>
    unfold dictLookup at ih ⊢
    rw [List.map_cons]
    simp only [List.find?]
    by_cases hpk : p.1 = k
    · have hne : ¬ p.1 = k' := by rw [hpk]; exact fun hh => h hh.symm
      rw [if_neg hne]
      cases hp : (p.1 == k) with
      | false => exact ih
      | true => rfl
    · have h1 : (((if p.1 = k' then (k', v) else p) : ℕ × EclipseEntry).1 == k) = false := by
        split_ifs with hk'
        · simpa using h
        · simpa using hpk
      have h2 : (p.1 == k) = false := by simpa using hpk
      rw [h1, h2]
      exact ih

lemma dictLookup_updateDict_ne (d : EclipseDict) (k' k : ℕ) (v : EclipseEntry)
    (h : k' ≠ k) : dictLookup (updateDict d k' v) k = dictLookup d k := by
  unfold updateDict
  cases hl : dictLookup d k' with
  | none => exact dictLookup_append_single_ne d k' k v h
  | some old =>
    dsimp only
    split_ifs with hd
    · exact dictLookup_mapfix d k' k v h
    · rfl

lemma dictLookup_runBatchAux_ne (days : List DayInput) :
    ∀ (d : EclipseDict) (k : ℕ),
      (∀ day ∈ days, ∀ k' v, day.eclipse = some (k', v) → k' ≠ k) →
      dictLookup (runBatchAux d days).1 k = dictLookup d k := by
  induction days with
  | nil => intro d k _; rfl
  | cons day rest ih =>
    intro d k h
    show dictLookup (runBatchAux _ rest).1 k = dictLookup d k
    have h1 : dictLookup (match day.eclipse with
        | none => d
        | some (k', v) => updateDict d k' v) k = dictLookup d k := by
      cases he : day.eclipse with
      | none => rfl
      | some kv =>
        obtain ⟨k', v⟩ := kv
        exact dictLookup_updateDict_ne d k' k v
          (h day (List.mem_cons_self day rest) k' v he)
    rw [ih _ k (fun day' hm k' v he => h day' (List.mem_cons_of_mem day hm) k' v he), h1]

lemma runBatchAux_second_pass (days : List DayInput) :
    ∀ d : EclipseDict,
      days.Pairwise (fun x y => x.recordDate < y.recordDate) →
      (∀ day ∈ days, eclipseKeyedForward day = true) →
      (runBatchAux d days).2 =
        days.map (fun day =>
          (day.recordDate, emitRecord (runBatchAux d days).1 day.recordDate)) := by
  induction days with
  | nil => intro d _ _; rfl
  | cons day rest ih =>
    intro d hsort hkeys
    obtain ⟨hhead, hrest⟩ := List.pairwise_cons.mp hsort
    have hne : ∀ day' ∈ rest, ∀ k' v, day'.eclipse = some (k', v) →
        k' ≠ day.recordDate := by
      intro day' hm k' v he
      have h1 : day.recordDate < day'.recordDate := hhead day' hm
      have h2 : day'.recordDate ≤ k' := by
        have := hkeys day' (List.mem_cons_of_mem day hm)
        unfold eclipseKeyedForward at this
        rw [he] at this
        simpa using this
      omega
    have hstep : runBatchAux d (day :: rest) =
        ((runBatchAux (match day.eclipse with
            | none => d
            | some (k, v) => updateDict d k v) rest).1,
         (day.recordDate, emitRecord (match day.eclipse with
            | none => d
            | some (k, v) => updateDict d k v) day.recordDate) ::
         (runBatchAux (match day.eclipse with
            | none => d
            | some (k, v) => updateDict d k v) rest).2) := rfl
    rw [hstep, List.map_cons]
    dsimp only
    congr 1
    · congr 1
      unfold emitRecord
      rw [dictLookup_runBatchAux_ne rest _ day.recordDate hne]
    · exact ih _ hrest (fun day' hm => hkeys day' (List.mem_cons_of_mem day hm))

/-- C4 counterexample: with a first day (record date 0, no eclipse) and a
second day whose night search stores an eclipse under local date 0, the
driver's single-pass lookup gives day 0 the "None" sentinel even though the
final eclipse-by-date mapping has an entry for date 0: the output does NOT
equal a second pass over the final mapping. -/
theorem batch_single_pass_differs_from_second_pass :
    runBatch [⟨0, none⟩, ⟨1, some (0, ("Total", 50, "t"))⟩] ≠
      secondPass [⟨0, none⟩, ⟨1, some (0, ("Total", 50, "t"))⟩] := by
  decide

/-- C4 amended: the eclipse mapping is keyed by the eclipse's own local date
and keeps the highest depth with first-processed winning ties (lines
321-323, embedded in `updateDict`), and each record's eclipse fields come
from the mapping as of the record's own loop iteration; this equals the
spec's second pass over the final mapping provided record dates strictly
increase and no night search stores an eclipse under a date earlier than its
own record date. -/
theorem batch_second_pass_equiv (days : List DayInput)
    (hsort : days.Pairwise (fun x y => x.recordDate < y.recordDate))
    (hkeys : ∀ day ∈ days, eclipseKeyedForward day = true) :
    runBatch days = secondPass days := by
  unfold runBatch secondPass finalEclipseDict
  exact runBatchAux_second_pass days [] hsort hkeys

/-- Witness for `batch_second_pass_equiv` on a two-day run whose eclipse is
dated on its own anchor day. -/
theorem batch_second_pass_equiv_witness :
    ([⟨0, some (0, ("Total", 80, "x"))⟩, ⟨1, none⟩] :
        List DayInput).Pairwise (fun x y => x.recordDate < y.recordDate) ∧
    (∀ day ∈ ([⟨0, some (0, ("Total", 80, "x"))⟩, ⟨1, none⟩] : List DayInput),
        eclipseKeyedForward day = true) ∧
    runBatch [⟨0, some (0, ("Total", 80, "x"))⟩, ⟨1, none⟩] =
      secondPass [⟨0, some (0, ("Total", 80, "x"))⟩, ⟨1, none⟩] :=
  ⟨by decide, by decide,
    batch_second_pass_equiv _ (by decide) (by decide)⟩

end MoonTracker

namespace MoonTracker

/-! ## Output column contract

`moon_phase_tracker.py` lines 356-367 build the output table; these are the
exact column names of each day record. `lunar_report_app.py` reads a
`Supermoon` field from every record (lines 174, 229, 419) besides the
columns the tracker writes. -/

/-- The columns of the table the batch driver writes (lines 356-367). -/
def trackerColumns : List String :=
  ["Date", "Phase", "Illumination_%", "Moon_Rise", "Moon_Set",
   "Up_All_Day", "Down_All_Day", "Eclipse_Type", "Eclipse_Depth_%",
   "Eclipse_Time"]

/-- The record fields the report dashboard reads. -/
def appColumnsRead : List String :=
  ["Date", "Phase", "Illumination_%", "Moon_Rise", "Moon_Set",
   "Supermoon", "Eclipse_Type", "Eclipse_Depth_%", "Eclipse_Time"]

/-- C1: the batch driver's day records contain no supermoon field at all —
the output columns lack `Supermoon` — while the dashboard reads exactly that
field from every record. -/
theorem no_supermoon_column :
    "Supermoon" ∉ trackerColumns ∧ "Supermoon" ∈ appColumnsRead := by
  decide

end MoonTracker
